import Mathlib

/-!
Verification development for `data_analysis.py`, a single-file
voter-registration analysis pipeline.

The script is embedded shallowly:

* pandas float64 cell values are modelled by `PVal`: an exact rational
  together with the IEEE special values `inf`, `negInf` and `nan`
  (the claims under study never depend on rounding, only on exact
  arithmetic identities and on the special values produced by
  division by zero);
* a CSV cell is a `String`; the column-cleaning statements
  (`str.replace(',', '')`, `.replace('NA', '0')`,
  `pd.to_numeric(errors='coerce').fillna(0)`) are embedded by
  `cleanCell`;
* a data row is a `RawRow` (all cells as read, i.e. strings) and the
  cleaned, annotated row is a `CleanRow`; `load_and_clean_data` maps
  the whole table;
* each renderer / reporter is a pure function from the cleaned table
  to its drawing data, returning the table it was handed alongside,
  so that the "shared table is never modified" property is a
  statement about the embedded functions;
* `np.polyfit`, which raises on an empty vector, is embedded by a
  function into `Except String`.
-/

attribute [local semireducible] Rat.mul Rat.inv Rat.add Rat.sub

/-- Model of a pandas float64 cell value: an exact rational (`num`),
positive infinity, negative infinity, or NaN. -/
inductive PVal where
  | num (q : ℚ)
  | inf
  | negInf
  | nan
deriving DecidableEq

namespace PVal

/-- IEEE negation. -/
def negate : PVal → PVal
  | num q => num (-q)
  | inf => negInf
  | negInf => inf
  | nan => nan

/-- IEEE addition on modelled float values. -/
def add : PVal → PVal → PVal
  | nan, _ => nan
  | _, nan => nan
  | num a, num b => num (a + b)
  | num _, inf => inf
  | num _, negInf => negInf
  | inf, num _ => inf
  | negInf, num _ => negInf
  | inf, inf => inf
  | negInf, negInf => negInf
  | inf, negInf => nan
  | negInf, inf => nan

/-- IEEE subtraction. -/
def sub (a b : PVal) : PVal := a.add b.negate

/-- IEEE multiplication on modelled float values. -/
def mul : PVal → PVal → PVal
  | nan, _ => nan
  | _, nan => nan
  | num a, num b => num (a * b)
  | num a, inf => if 0 < a then inf else if a < 0 then negInf else nan
  | num a, negInf => if 0 < a then negInf else if a < 0 then inf else nan
  | inf, num b => if 0 < b then inf else if b < 0 then negInf else nan
  | negInf, num b => if 0 < b then negInf else if b < 0 then inf else nan
  | inf, inf => inf
  | negInf, negInf => inf
  | inf, negInf => negInf
  | negInf, inf => negInf

/-- IEEE division on modelled float values: a finite nonzero value
divided by zero gives a signed infinity, `0/0` gives NaN. -/
def div : PVal → PVal → PVal
  | nan, _ => nan
  | _, nan => nan
  | num a, num b =>
      if b = 0 then (if 0 < a then inf else if a < 0 then negInf else nan)
      else num (a / b)
  | num _, inf => num 0
  | num _, negInf => num 0
  | inf, num b => if 0 ≤ b then inf else negInf
  | negInf, num b => if 0 ≤ b then negInf else inf
  | inf, inf => nan
  | inf, negInf => nan
  | negInf, inf => nan
  | negInf, negInf => nan

/-- Multiplication by a rational constant (the `* 1000` and `* 100`
scalings of the script). -/
def scale (c : ℚ) : PVal → PVal
  | num q => num (q * c)
  | inf => if 0 < c then inf else if c < 0 then negInf else nan
  | negInf => if 0 < c then negInf else if c < 0 then inf else nan
  | nan => nan

/-- IEEE strict greater-than (any comparison with NaN is false). -/
def gtB : PVal → PVal → Bool
  | nan, _ => false
  | _, nan => false
  | num a, num b => decide (b < a)
  | num _, inf => false
  | num _, negInf => true
  | inf, inf => false
  | inf, num _ => true
  | inf, negInf => true
  | negInf, _ => false

/-- The value is a finite non-negative number. -/
def isFiniteNonneg : PVal → Bool
  | num q => decide (0 ≤ q)
  | _ => false

/-- `Series.fillna(0)`: replace NaN by `0`, leave everything else. -/
def fillna0 : PVal → PVal
  | nan => num 0
  | v => v

/-- Order embedding used to rank non-NaN values: `negInf` (and the
never-ranked NaN) at the bottom, finite values in between, `inf` at
the top. -/
def toE : PVal → WithBot (WithTop ℚ)
  | num q => ((q : WithTop ℚ) : WithBot (WithTop ℚ))
  | inf => ((⊤ : WithTop ℚ) : WithBot (WithTop ℚ))
  | negInf => ⊥
  | nan => ⊥

end PVal

/-! ### Cell cleaning: `df[col].astype(str).str.replace(',', '').replace('NA', '0')`
followed by `pd.to_numeric(errors='coerce').fillna(0)`. -/

/-- `str.replace(',', '')`: delete every comma of the cell. -/
def stripCommas (s : String) : String :=
  String.mk (s.data.filter (fun c => c ≠ ','))

/-- Numeric value of a digit character. -/
def digVal (c : Char) : ℕ := c.toNat - 48

/-- Value of a big-endian digit string. -/
def decDigitsVal (ds : List Char) : ℕ :=
  Nat.ofDigits 10 ((ds.map digVal).reverse)

/-- Split a character list at the first `'.'`, if any. -/
def splitDot : List Char → List Char × Option (List Char)
  | [] => ([], none)
  | c :: cs =>
      if c = '.' then ([], some cs)
      else
        let p := splitDot cs
        (c :: p.1, p.2)

/-- Parse an unsigned decimal numeral `digits[.digits]` (at least one
digit somewhere, as for Python's float parsing) to its exact rational
value. Models the plain-decimal fragment accepted by
`pd.to_numeric`; scientific notation is not needed by any claim. -/
def parseDec (cs : List Char) : Option ℚ :=
  let p := splitDot cs
  let ip := p.1
  let fp := p.2.getD []
  if (ip ++ fp) ≠ [] ∧ (ip ++ fp).all Char.isDigit then
    some ((decDigitsVal ip : ℚ) + (decDigitsVal fp : ℚ) / 10 ^ fp.length)
  else none

/-- Parse an unsigned magnitude: the literals `inf`/`nan` accepted by
the pandas numeric converter, else a decimal numeral. -/
def parseMag (cs : List Char) : Option PVal :=
  if cs = "inf".data then some PVal.inf
  else if cs = "nan".data then some PVal.nan
  else (parseDec cs).map PVal.num

/-- Model of `pd.to_numeric(s, errors='coerce')` on a single cell:
optional sign, then a magnitude; `none` models coercion to NaN by an
unparsable cell. -/
def parseNum (s : String) : Option PVal :=
  match s.data with
  | [] => none
  | c :: rest =>
      if c = '-' then (parseMag rest).map PVal.negate
      else if c = '+' then parseMag rest
      else parseMag (c :: rest)

/-- The whole per-cell cleaning of `load_and_clean_data` (file
`data_analysis.py`, lines 30-32): delete commas, turn a cell that is
exactly `"NA"` into `"0"`, coerce to a number (unparsable → NaN),
then `fillna(0)`. -/
def cleanCell (s : String) : PVal :=
  let s1 := stripCommas s
  let s2 := if s1 = "NA" then "0" else s1
  ((parseNum s2).getD PVal.nan).fillna0

/-! ### Stringification of an already-cleaned column
(`astype(str)` applied to float64 values, as a second run of the
cleaning would do). The printer always emits a plain decimal with a
fractional part, e.g. `1000.0`; for a value of denominator `d` it
uses `d` fractional digits, which re-parses to the same rational, as
Python's shortest round-tripping repr does. -/

/-- Big-endian digit characters of `n` (empty for `0`). -/
def natToDigitsChars (n : ℕ) : List Char :=
  ((Nat.digits 10 n).map fun d => Char.ofNat (48 + d)).reverse

/-- Big-endian digit characters of `n`, `"0"` for `0`. -/
def natToStrAux (n : ℕ) : List Char :=
  if n = 0 then ['0'] else natToDigitsChars n

/-- `e` fractional digit characters for `n < 10^e`, left-padded with
zeros. -/
def padFrac (n e : ℕ) : List Char :=
  List.replicate (e - (Nat.digits 10 n).length) '0' ++ natToDigitsChars n

/-- Decimal string of a rational whose denominator divides a power of
ten (the only rationals a cleaned cell can hold). -/
def qToStr (q : ℚ) : String :=
  let e := q.den
  let N := (|q| * (10 : ℚ) ^ e).num.toNat
  String.mk ((if q < 0 then ['-'] else []) ++
    natToStrAux (N / 10 ^ e) ++ '.' :: padFrac (N % 10 ^ e) e)

/-- `astype(str)` on one cleaned cell. -/
def pvToStr : PVal → String
  | PVal.num q => qToStr q
  | PVal.inf => "inf"
  | PVal.negInf => "-inf"
  | PVal.nan => "nan"

/-! ### The table -/

/-- One row of `data.csv` as read: every cell a string. -/
structure RawRow where
  division : String
  district : String
  activeReg : String
  male : String
  female : String
  other : String
deriving DecidableEq

/-- One row of the cleaned, annotated table returned by
`load_and_clean_data`: the original index (pandas RangeIndex), the
two categorical columns, the four cleaned numeric columns and the
four derived columns. -/
structure CleanRow where
  idx : ℕ
  division : String
  district : String
  activeReg : PVal
  male : PVal
  female : PVal
  other : PVal
  total : PVal
  genderRatio : PVal
  femalePct : PVal
  malePct : PVal
deriving DecidableEq

/-- Cleaning and annotation of the row at index `i`
(`data_analysis.py` lines 30-38). -/
def cleanRow (i : ℕ) (r : RawRow) : CleanRow :=
  let ar := cleanCell r.activeReg
  let m := cleanCell r.male
  let f := cleanCell r.female
  let o := cleanCell r.other
  { idx := i
    division := r.division
    district := r.district
    activeReg := ar
    male := m
    female := f
    other := o
    total := (m.add f).add o
    genderRatio := (f.div m).scale 1000
    femalePct := (f.div ar).scale 100
    malePct := (m.div ar).scale 100 }

/-- `load_and_clean_data`: clean the four numeric columns of every
row and add the four derived columns. (The progress printing of the
original is an informational side effect with no data content.) -/
def load_and_clean_data (rows : List RawRow) : List CleanRow :=
  rows.enum.map (fun p => cleanRow p.1 p.2)

/-- The columns of the input table. -/
def rawColumns : List String :=
  ["Division", "District", "Active Registration", "Male", "Female", "Other"]

/-- The columns of the cleaned table: the input columns plus the four
derived ones added by `load_and_clean_data`. -/
def cleanColumns : List String :=
  rawColumns ++
    ["Total_Registration", "Gender_Ratio", "Female_Percentage", "Male_Percentage"]

/-- A second run of the column-cleaning statements
(lines 30-32) over an already-cleaned row: each of the four numeric
cells is stringified by `astype(str)` and cleaned again. -/
def recleanRow (r : CleanRow) : CleanRow :=
  { r with
    activeReg := cleanCell (pvToStr r.activeReg)
    male := cleanCell (pvToStr r.male)
    female := cleanCell (pvToStr r.female)
    other := cleanCell (pvToStr r.other) }

/-! ### Ranking: `DataFrame.nlargest(n, col)` with the default
`keep='first'`, which drops NaN keys and resolves ties by original
row order (a stable descending selection). -/

section StableSort

variable {β : Type} {α : Type} [LinearOrder α]

/-- Insert `x` into a descending-sorted list, in front of the first
element whose key does not exceed `x`'s (so an element inserted
later, i.e. occurring earlier in the original list, lands in front
of elements with an equal key). -/
def insDesc (k : β → α) (x : β) : List β → List β
  | [] => [x]
  | y :: ys => if k y ≤ k x then x :: y :: ys else y :: insDesc k x ys

/-- Stable descending insertion sort by key. -/
def sortDesc (k : β → α) (l : List β) : List β := l.foldr (insDesc k) []

/-- The `n` largest elements by key, ties kept in original order. -/
def nlargest (n : ℕ) (k : β → α) (l : List β) : List β := (sortDesc k l).take n

/-- Insert `x` into an ascending-sorted list, stably. -/
def insAsc (k : β → α) (x : β) : List β → List β
  | [] => [x]
  | y :: ys => if k x ≤ k y then x :: y :: ys else y :: insAsc k x ys

/-- Stable ascending insertion sort by key (the alphabetical key
ordering `groupby` applies with its default `sort=True`). -/
def sortAsc (k : β → α) (l : List β) : List β := l.foldr (insAsc k) []

end StableSort

/-- `nlargest` on a float64 column: NaN keys are dropped
(`SelectNSeries` starts with `dropna()`), then a stable descending
selection on the remaining values. -/
def nlargestPV (n : ℕ) (k : CleanRow → PVal) (df : List CleanRow) : List CleanRow :=
  nlargest n (fun r => (k r).toE) (df.filter (fun r => k r != PVal.nan))

/-- `df['Division'].unique()`: first-seen order. -/
def uniqueDivisions (df : List CleanRow) : List String :=
  df.foldl (fun acc r => if r.division ∈ acc then acc else acc ++ [r.division]) []

/-- pandas `Series.sum()` (default `skipna=True`). -/
def pvSum (l : List PVal) : PVal :=
  (l.filter (fun v => v != PVal.nan)).foldl PVal.add (PVal.num 0)

/-- Number of non-NaN entries. -/
def pvCount (l : List PVal) : ℕ :=
  (l.filter (fun v => v != PVal.nan)).length

/-- pandas `Series.mean()` (default `skipna=True`; NaN on an empty or
all-NaN column). -/
def pvMean (l : List PVal) : PVal :=
  if pvCount l = 0 then PVal.nan else (pvSum l).div (PVal.num (pvCount l))

/-- NumPy sum (NaN propagates). -/
def npSum (l : List PVal) : PVal := l.foldl PVal.add (PVal.num 0)

/-- IEEE-754 round half to even to an integer (the rounding of
`DataFrame.round`, i.e. `np.round`). -/
def roundHalfEven (q : ℚ) : ℤ :=
  let n := ⌊q⌋
  let f := q - n
  if f < 1 / 2 then n
  else if (1 : ℚ) / 2 < f then n + 1
  else if n % 2 = 0 then n else n + 1

/-- `round(d)` on a cell: half-even rounding at `d` decimal places;
infinities and NaN pass through. -/
def pvRoundTo (d : ℕ) : PVal → PVal
  | PVal.num q => PVal.num ((roundHalfEven (q * 10 ^ d) : ℚ) / 10 ^ d)
  | v => v

/-- Model of `np.polyfit(x, y, 1)`: raises (`TypeError: expected
non-empty vector for x`) when the vectors are empty, otherwise the
ordinary-least-squares slope and intercept, computed with IEEE
arithmetic (degenerate single-point input yields NaN here where
NumPy's lstsq warns and returns a pseudo-inverse solution; no claim
depends on that case). -/
def polyfitLine (xs ys : List PVal) : Except String (PVal × PVal) :=
  if xs.isEmpty then Except.error "expected non-empty vector for x"
  else
    let n : PVal := PVal.num xs.length
    let sx := npSum xs
    let sy := npSum ys
    let sxy := npSum (List.zipWith PVal.mul xs ys)
    let sxx := npSum (xs.map fun v => v.mul v)
    let slope := ((n.mul sxy).sub (sx.mul sy)).div ((n.mul sxx).sub (sx.mul sx))
    let intercept := (sy.sub (slope.mul sx)).div n
    Except.ok (slope, intercept)

/-! ### The renderers and the reporter. Each consumes the cleaned
table and computes the data its drawing or report is built from; the
plotting-library calls themselves are presentation only. Each stage
returns the table alongside, which embeds the fact that no statement
of its body assigns into the shared DataFrame. -/

/-- Data of the scatter chart. -/
structure ScatterOut where
  divisions : List String
  points : List (String × List (PVal × PVal))
  trend : PVal × PVal
  annotations : List (String × PVal × PVal)
deriving DecidableEq

/-- `generate_scatter_plot`: per-division point clusters, the
`np.polyfit` trend line over the full dataset (which raises on an
empty table), and annotations of rows with `Gender_Ratio > 1500`. -/
def generate_scatter_plot (df : List CleanRow) :
    Except String (ScatterOut × List CleanRow) :=
  let divs := uniqueDivisions df
  let pts := divs.map (fun d =>
    (d, (df.filter (fun r => r.division == d)).map
      (fun r => (r.activeReg, r.genderRatio))))
  match polyfitLine (df.map (·.activeReg)) (df.map (·.genderRatio)) with
  | Except.error e => Except.error e
  | Except.ok tr =>
      let ann := (df.filter (fun r => PVal.gtB r.genderRatio (PVal.num 1500))).map
        (fun r => (r.district, r.activeReg, r.genderRatio))
      Except.ok ({ divisions := divs, points := pts, trend := tr,
                   annotations := ann }, df)

/-- Data of the two box plots. -/
structure BoxOut where
  labels : List String
  regGroups : List (List PVal)
  ratioGroups : List (List PVal)
deriving DecidableEq

/-- `generate_box_plot`: per-division value lists (first-seen
division order, identical across both subplots). -/
def generate_box_plot (df : List CleanRow) : BoxOut × List CleanRow :=
  ({ labels := uniqueDivisions df
     regGroups := (uniqueDivisions df).map (fun d =>
       (df.filter (fun r => r.division == d)).map (·.activeReg))
     ratioGroups := (uniqueDivisions df).map (fun d =>
       (df.filter (fun r => r.division == d)).map (·.genderRatio)) }, df)

/-- Data of the two bar subplots. -/
structure BarOut where
  topDistricts : List CleanRow
  barLabels : List String
  barValues : List PVal
  divisionStats : List (String × PVal × PVal × PVal × PVal)
deriving DecidableEq

/-- `generate_bar_plot`: the top-15 districts by Active Registration
(`nlargest`), their labels and values, and the per-division
aggregates (`groupby('Division')` sorts divisions alphabetically;
all aggregate columns are rounded with `round(0)`). -/
def generate_bar_plot (df : List CleanRow) : BarOut × List CleanRow :=
  let top := nlargestPV 15 (·.activeReg) df
  let stats := (sortAsc id (uniqueDivisions df)).map (fun d =>
    let g := df.filter (fun r => r.division == d)
    (d, pvRoundTo 0 (pvSum (g.map (·.activeReg))),
        pvRoundTo 0 (pvSum (g.map (·.male))),
        pvRoundTo 0 (pvSum (g.map (·.female))),
        pvRoundTo 0 (pvMean (g.map (·.genderRatio)))))
  ({ topDistricts := top
     barLabels := top.map (fun r => r.district ++ " (" ++ r.division ++ ")")
     barValues := top.map (·.activeReg)
     divisionStats := stats }, df)

/-- Data of the printed summary. -/
structure SummaryOut where
  totalActive : PVal
  totalMale : PVal
  totalFemale : PVal
  totalOther : PVal
  avgGenderRatio : PVal
  overallFemalePct : PVal
  divisionSummary : List (String × PVal × PVal × PVal × PVal)
  top5 : List CleanRow
  top5Gender : List CleanRow
deriving DecidableEq

/-- `generate_summary_statistics`: dataset-wide totals and means, the
per-division aggregate table (`round(1)`), and the two top-5
selections. -/
def generate_summary_statistics (df : List CleanRow) :
    SummaryOut × List CleanRow :=
  ({ totalActive := pvSum (df.map (·.activeReg))
     totalMale := pvSum (df.map (·.male))
     totalFemale := pvSum (df.map (·.female))
     totalOther := pvSum (df.map (·.other))
     avgGenderRatio := pvMean (df.map (·.genderRatio))
     overallFemalePct :=
       ((pvSum (df.map (·.female))).div (pvSum (df.map (·.activeReg)))).scale 100
     divisionSummary := (sortAsc id (uniqueDivisions df)).map (fun d =>
       let g := df.filter (fun r => r.division == d)
       (d, pvRoundTo 1 (pvSum (g.map (·.activeReg))),
           pvRoundTo 1 (pvMean (g.map (·.activeReg))),
           pvRoundTo 1 (pvMean (g.map (·.genderRatio))),
           pvRoundTo 1 (pvMean (g.map (·.femalePct)))))
     top5 := nlargestPV 5 (·.activeReg) df
     top5Gender := nlargestPV 5 (·.genderRatio) df }, df)

/-- Everything the run produces. -/
structure RunOutputs where
  scatter : ScatterOut
  box : BoxOut
  bar : BarOut
  summary : SummaryOut
deriving DecidableEq

/-- The driver `main` of the script (the name `main` is reserved by
Lean): clean, render the three charts, report. The scatter
renderer's `np.polyfit` failure aborts the run. -/
def mainPipeline (rows : List RawRow) : Except String RunOutputs :=
  let df := load_and_clean_data rows
  match generate_scatter_plot df with
  | Except.error e => Except.error e
  | Except.ok (s, df1) =>
      let b := generate_box_plot df1
      let r := generate_bar_plot b.2
      let y := generate_summary_statistics r.2
      Except.ok { scatter := s, box := b.1, bar := r.1, summary := y.1 }

/-! ### Lemmas about digit characters and digit strings -/

lemma digitChar_props {d : ℕ} (h : d < 10) :
    (Char.ofNat (48 + d)).isDigit = true ∧ digVal (Char.ofNat (48 + d)) = d ∧
      Char.ofNat (48 + d) ≠ '.' ∧ Char.ofNat (48 + d) ≠ ',' ∧
      Char.ofNat (48 + d) ≠ '-' ∧ Char.ofNat (48 + d) ≠ '+' := by
  interval_cases d <;>
    exact ⟨by decide, by decide, by decide, by decide, by decide, by decide⟩

lemma mem_natToDigitsChars {c : Char} {n : ℕ} (h : c ∈ natToDigitsChars n) :
    ∃ d, d < 10 ∧ c = Char.ofNat (48 + d) := by
  simp only [natToDigitsChars, List.mem_reverse, List.mem_map] at h
  obtain ⟨d, hd, rfl⟩ := h
  exact ⟨d, Nat.digits_lt_base (by norm_num) hd, rfl⟩

lemma mem_natToStrAux {c : Char} {n : ℕ} (h : c ∈ natToStrAux n) :
    ∃ d, d < 10 ∧ c = Char.ofNat (48 + d) := by
  unfold natToStrAux at h
  split at h
  · simp at h
    exact ⟨0, by norm_num, by rw [h]⟩
  · exact mem_natToDigitsChars h

lemma mem_padFrac {c : Char} {n e : ℕ} (h : c ∈ padFrac n e) :
    ∃ d, d < 10 ∧ c = Char.ofNat (48 + d) := by
  unfold padFrac at h
  rcases List.mem_append.1 h with h' | h'
  · exact ⟨0, by norm_num, by rw [List.eq_of_mem_replicate h']⟩
  · exact mem_natToDigitsChars h'

lemma decDigitsVal_natToDigitsChars (n : ℕ) :
    decDigitsVal (natToDigitsChars n) = n := by
  unfold decDigitsVal natToDigitsChars
  rw [List.map_reverse, List.reverse_reverse, List.map_map]
  have h1 : (Nat.digits 10 n).map (digVal ∘ fun d => Char.ofNat (48 + d)) =
      (Nat.digits 10 n).map id := by
    apply List.map_congr_left
    intro d hd
    exact (digitChar_props (Nat.digits_lt_base (by norm_num) hd)).2.1
  rw [h1, List.map_id, Nat.ofDigits_digits]

lemma decDigitsVal_natToStrAux (n : ℕ) : decDigitsVal (natToStrAux n) = n := by
  unfold natToStrAux
  split
  · simp only [decDigitsVal]
    subst_vars
    decide
  · exact decDigitsVal_natToDigitsChars n

lemma ofDigits_replicate_zero (k : ℕ) :
    Nat.ofDigits 10 (List.replicate k 0) = 0 := by
  induction k with
  | zero => rfl
  | succ m ih => simp [List.replicate_succ, Nat.ofDigits_cons, ih]

lemma decDigitsVal_padFrac (n e : ℕ) : decDigitsVal (padFrac n e) = n := by
  unfold decDigitsVal padFrac
  rw [List.map_append, List.reverse_append, Nat.ofDigits_append]
  have hz : (List.replicate (e - (Nat.digits 10 n).length) '0').map digVal =
      List.replicate (e - (Nat.digits 10 n).length) 0 := by
    rw [List.map_replicate]; rfl
  rw [hz, List.reverse_replicate, ofDigits_replicate_zero, mul_zero, add_zero]
  exact decDigitsVal_natToDigitsChars n

lemma length_natToDigitsChars (n : ℕ) :
    (natToDigitsChars n).length = (Nat.digits 10 n).length := by
  simp [natToDigitsChars]

lemma length_padFrac {n e : ℕ} (h : n < 10 ^ e) : (padFrac n e).length = e := by
  have hlen : (Nat.digits 10 n).length ≤ e := by
    rcases eq_or_ne n 0 with rfl | hn
    · simp
    · rw [Nat.digits_len 10 n (by norm_num) hn]
      have := Nat.log_lt_of_lt_pow hn h
      omega
  simp only [padFrac, List.length_append, List.length_replicate,
    length_natToDigitsChars]
  omega

/-! ### Lemmas about the string helpers and the parser -/

lemma string_eq_of_data {s t : String} (h : s.data = t.data) : s = t := by
  cases s; cases t; simp_all

lemma splitDot_append {l1 l2 : List Char} (h : '.' ∉ l1) :
    splitDot (l1 ++ '.' :: l2) = (l1, some l2) := by
  induction l1 with
  | nil => simp [splitDot]
  | cons c cs ih =>
      have hc : ¬(c = '.') := fun he => h (by rw [he]; exact List.mem_cons_self _ _)
      have hcs : '.' ∉ cs := fun hm => h (List.mem_cons_of_mem c hm)
      simp only [List.cons_append, splitDot, if_neg hc, List.append_eq, ih hcs]

lemma stripCommas_eq_self {s : String} (h : ∀ c ∈ s.data, c ≠ ',') :
    stripCommas s = s := by
  apply string_eq_of_data
  show (s.data.filter fun c => c ≠ ',') = s.data
  rw [List.filter_eq_self]
  intro a ha
  simpa using h a ha

lemma stripCommas_idem (s : String) :
    stripCommas (stripCommas s) = stripCommas s := by
  apply stripCommas_eq_self
  intro c hc
  have := List.of_mem_filter (p := fun c => decide (c ≠ ',')) hc
  simpa using this

lemma parseDec_print {a b e : ℕ} (hb : b < 10 ^ e) :
    parseDec (natToStrAux a ++ '.' :: padFrac b e) =
      some ((a : ℚ) + (b : ℚ) / 10 ^ e) := by
  have hdot : '.' ∉ natToStrAux a := by
    intro hm
    obtain ⟨d, hd, hc⟩ := mem_natToStrAux hm
    exact (digitChar_props hd).2.2.1 hc.symm
  have hsplit := @splitDot_append (natToStrAux a) (padFrac b e) hdot
  unfold parseDec
  rw [hsplit]
  have hdig : ∀ c ∈ natToStrAux a ++ padFrac b e, c.isDigit = true := by
    intro c hc
    rcases List.mem_append.1 hc with h' | h'
    · obtain ⟨d, hd, rfl⟩ := mem_natToStrAux h'
      exact (digitChar_props hd).1
    · obtain ⟨d, hd, rfl⟩ := mem_padFrac h'
      exact (digitChar_props hd).1
  have hne : natToStrAux a ++ padFrac b e ≠ [] := by
    unfold natToStrAux
    split
    · simp
    · simp only [ne_eq, List.append_eq_nil, not_and]
      intro h1
      exact absurd h1 (by
        unfold natToDigitsChars
        simp [Nat.digits_ne_nil_iff_ne_zero.2 (by assumption)])
  rw [if_pos ⟨hne, List.all_eq_true.2 hdig⟩, Option.getD_some]
  rw [decDigitsVal_natToStrAux, decDigitsVal_padFrac, length_padFrac hb]

lemma natToStrAux_ne_nil (n : ℕ) : natToStrAux n ≠ [] := by
  unfold natToStrAux
  split
  · simp
  · unfold natToDigitsChars
    simp [Nat.digits_ne_nil_iff_ne_zero.2 (by assumption)]

lemma dvd_ten_pow_self {d L : ℕ} (h : d ∣ 10 ^ L) : d ∣ 10 ^ d := by
  have h10 : (10 : ℕ) ^ L = 2 ^ L * 5 ^ L := by rw [← mul_pow]; norm_num
  rw [h10] at h
  obtain ⟨d1, d2, h1, h2, rfl⟩ := exists_dvd_and_dvd_of_dvd_mul h
  obtain ⟨a, _, rfl⟩ := (Nat.dvd_prime_pow Nat.prime_two).1 h1
  obtain ⟨b, _, rfl⟩ := (Nat.dvd_prime_pow (by norm_num)).1 h2
  have hpa : 0 < (5 : ℕ) ^ b := pow_pos (by norm_num) b
  have hpb : 0 < (2 : ℕ) ^ a := pow_pos (by norm_num) a
  have ha2 : a ≤ 2 ^ a * 5 ^ b :=
    le_trans (Nat.le_of_lt (Nat.lt_two_pow a)) (Nat.le_mul_of_pos_right _ hpa)
  have hb2 : b ≤ 2 ^ a * 5 ^ b :=
    le_trans (Nat.le_of_lt (Nat.lt_pow_self (by norm_num) b))
      (Nat.le_mul_of_pos_left _ hpb)
  have hdvd : 2 ^ a * 5 ^ b ∣ 2 ^ (2 ^ a * 5 ^ b) * 5 ^ (2 ^ a * 5 ^ b) :=
    mul_dvd_mul (pow_dvd_pow 2 ha2) (pow_dvd_pow 5 hb2)
  rwa [← mul_pow] at hdvd

lemma parseDec_spec {cs : List Char} {v : ℚ} (h : parseDec cs = some v) :
    0 ≤ v ∧ ∃ N L : ℕ, v = (N : ℚ) / 10 ^ L := by
  have h' : (if ((splitDot cs).1 ++ (splitDot cs).2.getD []) ≠ [] ∧
      ((splitDot cs).1 ++ (splitDot cs).2.getD []).all Char.isDigit then
      some ((decDigitsVal (splitDot cs).1 : ℚ) +
        (decDigitsVal ((splitDot cs).2.getD []) : ℚ) /
          10 ^ ((splitDot cs).2.getD []).length)
    else none) = some v := h
  split at h'
  · rw [Option.some_inj] at h'
    subst h'
    constructor
    · positivity
    · refine ⟨decDigitsVal (splitDot cs).1 * 10 ^ ((splitDot cs).2.getD []).length
        + decDigitsVal ((splitDot cs).2.getD []),
        ((splitDot cs).2.getD []).length, ?_⟩
      have h10 : ((10 : ℚ)) ^ ((splitDot cs).2.getD []).length ≠ 0 := by positivity
      push_cast
      field_simp
  · exact absurd h' (by simp)

lemma den_dvd_of_div_pow {v : ℚ} {N L : ℕ} (h : v = (N : ℚ) / 10 ^ L) :
    (v.den : ℕ) ∣ 10 ^ L := by
  have h1 : v = Rat.divInt (N : ℤ) ((10 : ℤ) ^ L) := by
    rw [Rat.divInt_eq_div, h]
    push_cast
    ring
  have h2 := Rat.den_dvd (N : ℤ) ((10 : ℤ) ^ L)
  rw [← h1] at h2
  have h3 : ((10 : ℤ) ^ L) = ((10 ^ L : ℕ) : ℤ) := by push_cast; ring
  rw [h3] at h2
  exact_mod_cast h2

lemma parseMag_num {cs : List Char} {u : ℚ} (h : parseMag cs = some (PVal.num u)) :
    parseDec cs = some u := by
  unfold parseMag at h
  split at h
  · exact absurd h (by simp)
  · split at h
    · exact absurd h (by simp)
    · cases hd : parseDec cs with
      | none => rw [hd] at h; exact absurd h (by simp)
      | some w =>
          rw [hd] at h
          simp only [Option.map_some', Option.some_inj, PVal.num.injEq] at h
          rw [h]

lemma parseNum_num_range {s : String} {u : ℚ}
    (h : parseNum s = some (PVal.num u)) : ∃ L : ℕ, (u.den : ℕ) ∣ 10 ^ L := by
  obtain ⟨data⟩ := s
  cases data with
  | nil => exact absurd h (by simp [parseNum])
  | cons c rest =>
      have h' : (if c = '-' then (parseMag rest).map PVal.negate
          else if c = '+' then parseMag rest
          else parseMag (c :: rest)) = some (PVal.num u) := h
      split at h'
      · cases hm : parseMag rest with
        | none => rw [hm] at h'; exact absurd h' (by simp)
        | some w =>
            rw [hm] at h'
            simp only [Option.map_some', Option.some_inj] at h'
            cases w with
            | num x =>
                have hux : u = -x := by
                  have : PVal.num (-x) = PVal.num u := by
                    simpa [PVal.negate] using h'
                  injection this with h''
                  exact h''.symm
                obtain ⟨-, N, L, hNL⟩ := parseDec_spec (parseMag_num hm)
                refine ⟨L, ?_⟩
                have hd : u.den = x.den := by rw [hux, Rat.neg_den]
                rw [hd]
                exact den_dvd_of_div_pow hNL
            | inf => simp [PVal.negate] at h'
            | negInf => simp [PVal.negate] at h'
            | nan => simp [PVal.negate] at h'
      · split at h'
        · obtain ⟨-, N, L, hNL⟩ := parseDec_spec (parseMag_num h')
          exact ⟨L, den_dvd_of_div_pow hNL⟩
        · obtain ⟨-, N, L, hNL⟩ := parseDec_spec (parseMag_num h')
          exact ⟨L, den_dvd_of_div_pow hNL⟩


lemma parseMag_of_dot {cs : List Char} (h : '.' ∈ cs) :
    parseMag cs = (parseDec cs).map PVal.num := by
  unfold parseMag
  have h1 : cs ≠ "inf".data := by intro he; rw [he] at h; revert h; decide
  have h2 : cs ≠ "nan".data := by intro he; rw [he] at h; revert h; decide
  rw [if_neg h1, if_neg h2]

lemma parseNum_cons_eq {c : Char} {rest : List Char} (h1 : ¬(c = '-'))
    (h2 : ¬(c = '+')) : parseNum (String.mk (c :: rest)) = parseMag (c :: rest) := by
  have h0 : parseNum (String.mk (c :: rest)) =
      (if c = '-' then (parseMag rest).map PVal.negate
       else if c = '+' then parseMag rest else parseMag (c :: rest)) := rfl
  rw [h0, if_neg h1, if_neg h2]

lemma parseNum_neg_eq (rest : List Char) :
    parseNum (String.mk ('-' :: rest)) = (parseMag rest).map PVal.negate := rfl

lemma parseNum_qToStr {q : ℚ} (h : (q.den : ℕ) ∣ 10 ^ q.den) :
    parseNum (qToStr q) = some (PVal.num q) := by
  obtain ⟨t, ht⟩ := h
  set e := q.den with he
  have habs_den : |q|.den = q.den := by
    rcases abs_choice q with h1 | h1 <;> rw [h1]
    exact Rat.neg_den q
  have hqe : |q| * (10 : ℚ) ^ e = ((|q|.num * t : ℤ) : ℚ) := by
    have h1 : ((10 : ℚ)) ^ e = ((q.den : ℚ)) * (t : ℚ) := by
      exact_mod_cast congrArg (fun x : ℕ => (x : ℚ)) ht
    rw [h1, ← mul_assoc]
    rw [show |q| * ((q.den : ℚ)) = |q| * ((|q|.den : ℚ)) by rw [habs_den]]
    rw [Rat.mul_den_eq_num]
    push_cast
    ring
  have hnum_nonneg : 0 ≤ |q|.num * t :=
    mul_nonneg (Rat.num_nonneg.2 (abs_nonneg q)) (by positivity)
  set N := (|q| * (10 : ℚ) ^ e).num.toNat with hN
  have hNQ : (N : ℚ) = |q| * (10 : ℚ) ^ e := by
    rw [hN, hqe, Rat.num_intCast]
    exact_mod_cast Int.toNat_of_nonneg hnum_nonneg
  have h10 : ((10 : ℚ)) ^ e ≠ 0 := by positivity
  have hmod : 10 ^ e * (N / 10 ^ e) + N % 10 ^ e = N := Nat.div_add_mod N (10 ^ e)
  have hkey : ((N / 10 ^ e : ℕ) : ℚ) + ((N % 10 ^ e : ℕ) : ℚ) / (10 : ℚ) ^ e = |q| := by
    have e1 : (10 : ℚ) ^ e * ((N / 10 ^ e : ℕ) : ℚ) + ((N % 10 ^ e : ℕ) : ℚ) = (N : ℚ) := by
      exact_mod_cast hmod
    have e2 : ((N / 10 ^ e : ℕ) : ℚ) + ((N % 10 ^ e : ℕ) : ℚ) / (10 : ℚ) ^ e
        = ((10 : ℚ) ^ e * ((N / 10 ^ e : ℕ) : ℚ) + ((N % 10 ^ e : ℕ) : ℚ)) / (10 : ℚ) ^ e := by
      field_simp
      ring
    rw [e2, e1, hNQ, mul_div_assoc, div_self h10, mul_one]
  have hblt : N % 10 ^ e < 10 ^ e := Nat.mod_lt _ (by positivity)
  have hdec := @parseDec_print (N / 10 ^ e) (N % 10 ^ e) e hblt
  by_cases hneg : q < 0
  · have hqs : qToStr q = String.mk ('-' ::
        (natToStrAux (N / 10 ^ e) ++ '.' :: padFrac (N % 10 ^ e) e)) := by
      unfold qToStr
      rw [if_pos hneg]
      rfl
    rw [hqs, parseNum_neg_eq]
    have hdot : '.' ∈ natToStrAux (N / 10 ^ e) ++ '.' :: padFrac (N % 10 ^ e) e :=
      List.mem_append_right _ (List.mem_cons_self _ _)
    rw [parseMag_of_dot hdot, hdec]
    simp only [Option.map_some', PVal.negate]
    rw [hkey, abs_of_neg hneg, neg_neg]
  · push_neg at hneg
    have hqs : qToStr q = String.mk
        (natToStrAux (N / 10 ^ e) ++ '.' :: padFrac (N % 10 ^ e) e) := by
      unfold qToStr
      rw [if_neg (not_lt.2 hneg)]
      rfl
    rcases hna : natToStrAux (N / 10 ^ e) with _ | ⟨c, cs'⟩
    · exact absurd hna (natToStrAux_ne_nil _)
    · have hcmem : c ∈ natToStrAux (N / 10 ^ e) := by
        rw [hna]; exact List.mem_cons_self _ _
      obtain ⟨d, hd, rfl⟩ := mem_natToStrAux hcmem
      have hprops := digitChar_props hd
      rw [hqs, hna, List.cons_append]
      rw [parseNum_cons_eq hprops.2.2.2.2.1 hprops.2.2.2.2.2]
      rw [← List.cons_append, ← hna]
      have hdot : '.' ∈ natToStrAux (N / 10 ^ e) ++ '.' :: padFrac (N % 10 ^ e) e :=
        List.mem_append_right _ (List.mem_cons_self _ _)
      rw [parseMag_of_dot hdot, hdec]
      simp only [Option.map_some']
      rw [hkey, abs_of_nonneg hneg]

lemma qToStr_chars {q : ℚ} {c : Char} (h : c ∈ (qToStr q).data) :
    c = '-' ∨ c = '.' ∨ ∃ d, d < 10 ∧ c = Char.ofNat (48 + d) := by
  have h' : c ∈ (((if q < 0 then ['-'] else []) ++
      natToStrAux ((|q| * (10 : ℚ) ^ q.den).num.toNat / 10 ^ q.den)) ++
        '.' :: padFrac ((|q| * (10 : ℚ) ^ q.den).num.toNat % 10 ^ q.den) q.den) := h
  rcases List.mem_append.1 h' with h1 | h1
  · rcases List.mem_append.1 h1 with h2 | h2
    · left
      split at h2
      · simpa using h2
      · simp at h2
    · right; right; exact mem_natToStrAux h2
  · rcases List.mem_cons.1 h1 with h3 | h3
    · right; left; exact h3
    · right; right; exact mem_padFrac h3

lemma no_comma_qToStr (q : ℚ) : ∀ c ∈ (qToStr q).data, c ≠ ',' := by
  intro c hc
  rcases qToStr_chars hc with rfl | rfl | ⟨d, hd, rfl⟩
  · decide
  · decide
  · exact (digitChar_props hd).2.2.2.1

lemma dot_mem_qToStr (q : ℚ) : '.' ∈ (qToStr q).data :=
  List.mem_append_right _ (List.mem_cons_self _ _)

lemma qToStr_ne_NA (q : ℚ) : qToStr q ≠ "NA" := by
  intro h
  have hd := dot_mem_qToStr q
  rw [h] at hd
  revert hd
  decide

lemma cleanCell_qToStr {q : ℚ} {L : ℕ} (h : (q.den : ℕ) ∣ 10 ^ L) :
    cleanCell (qToStr q) = PVal.num q := by
  have hparse := parseNum_qToStr (dvd_ten_pow_self h)
  have hstrip : stripCommas (qToStr q) = qToStr q :=
    stripCommas_eq_self (no_comma_qToStr q)
  have hdef : cleanCell (qToStr q) = ((parseNum (if stripCommas (qToStr q) = "NA"
      then "0" else stripCommas (qToStr q))).getD PVal.nan).fillna0 := rfl
  rw [hdef, hstrip, if_neg (qToStr_ne_NA q), hparse]
  rfl

lemma cleanCell_reclean (s : String) :
    cleanCell (pvToStr (cleanCell s)) = cleanCell s := by
  have hdef : cleanCell s = ((parseNum (if stripCommas s = "NA" then "0"
      else stripCommas s)).getD PVal.nan).fillna0 := rfl
  rcases hp : parseNum (if stripCommas s = "NA" then "0" else stripCommas s)
    with - | v
  · rw [hdef, hp]
    exact @cleanCell_qToStr 0 0 (by norm_num)
  · cases v with
    | num u =>
        rw [hdef, hp]
        obtain ⟨L, hL⟩ := parseNum_num_range hp
        exact cleanCell_qToStr hL
    | inf => rw [hdef, hp]; decide
    | negInf => rw [hdef, hp]; decide
    | nan =>
        rw [hdef, hp]
        exact @cleanCell_qToStr 0 0 (by norm_num)

/-! ### Claim C1, C7, C8: the cleaning normalisation -/

/-- Claim C1: the cleaning of a numeric cell strips the comma
thousands separators (cleaning a cell and cleaning its comma-free
form agree), maps a literal `"NA"` cell to `0`, parses the remaining
string as a number, and maps any cell that still fails to parse to
`0`. `cleanCell` is a total function, so no input cell raises. -/
theorem cleanCell_normalizes (s : String) :
    cleanCell (stripCommas s) = cleanCell s ∧
    (stripCommas s = "NA" → cleanCell s = PVal.num 0) ∧
    (stripCommas s ≠ "NA" → parseNum (stripCommas s) = none →
      cleanCell s = PVal.num 0) ∧
    (∀ q : ℚ, stripCommas s ≠ "NA" → parseNum (stripCommas s) = some (PVal.num q) →
      cleanCell s = PVal.num q) := by
  have hdef : ∀ t : String, cleanCell t = ((parseNum (if stripCommas t = "NA"
      then "0" else stripCommas t)).getD PVal.nan).fillna0 := fun t => rfl
  refine ⟨?_, ?_, ?_, ?_⟩
  · rw [hdef (stripCommas s), hdef s, stripCommas_idem]
  · intro h
    rw [hdef s, if_pos h]
    decide
  · intro h hn
    rw [hdef s, if_neg h, hn]
    rfl
  · intro q h hq
    rw [hdef s, if_neg h, hq]
    rfl

/-- Witness for C1: the cell `"1,234"` cleans to the number `1234`. -/
theorem cleanCell_normalizes_witness : cleanCell "1,234" = PVal.num 1234 :=
  (cleanCell_normalizes "1,234").2.2.2 1234 (by decide) (by decide)

/-- Claim C8: on a cell already free of commas and of the `"NA"`
marker, cleaning returns exactly what the numeric parser returns (no
value is altered); the NaN case is excluded since a parsed NaN is a
not-a-number marker, not a well-formed numeric value. -/
theorem cleanCell_wellformed_id (s : String) (v : PVal) (h1 : ',' ∉ s.data)
    (h2 : s ≠ "NA") (h3 : parseNum s = some v) (h4 : v ≠ PVal.nan) :
    cleanCell s = v := by
  have hsc : stripCommas s = s :=
    stripCommas_eq_self (fun c hc he => h1 (he ▸ hc))
  have hdef : cleanCell s = ((parseNum (if stripCommas s = "NA" then "0"
      else stripCommas s)).getD PVal.nan).fillna0 := rfl
  rw [hdef, hsc, if_neg h2, h3]
  cases v with
  | num u => rfl
  | inf => rfl
  | negInf => rfl
  | nan => exact absurd rfl h4

/-- Witness for C8: `"666.5"` cleans to exactly its parsed value. -/
theorem cleanCell_wellformed_id_witness : cleanCell "666.5" = PVal.num (1333 / 2) :=
  cleanCell_wellformed_id "666.5" (PVal.num (1333 / 2)) (by decide) (by decide)
    (by decide) (by decide)

/-- Claim C7: running the column cleaning a second time over the
already-cleaned table (stringify each of the four numeric cells, then
clean again) changes no value: the cleaning is idempotent. -/
theorem cleaning_idempotent (rows : List RawRow) :
    (load_and_clean_data rows).map recleanRow = load_and_clean_data rows := by
  unfold load_and_clean_data
  rw [List.map_map]
  apply List.map_congr_left
  intro p _
  show recleanRow (cleanRow p.1 p.2) = cleanRow p.1 p.2
  unfold recleanRow cleanRow
  simp only [cleanCell_reclean]

/-! ### Claims C2, C9: shape of the cleaned table -/

/-- A sample raw row, used by several witnesses: Other is "NA" and
Active Registration carries a thousands separator. -/
def sampleRaw : RawRow :=
  { division := "Pune", district := "X", activeReg := "1,000",
    male := "600", female := "400", other := "NA" }

/-- Claim C2: in every row of the cleaned table the derived column
Total_Registration is exactly the (IEEE) sum Male + Female + Other of
the cleaned columns. -/
theorem total_registration_eq_sum (rows : List RawRow) (r : CleanRow)
    (h : r ∈ load_and_clean_data rows) :
    r.total = (r.male.add r.female).add r.other := by
  unfold load_and_clean_data at h
  rw [List.mem_map] at h
  obtain ⟨p, -, rfl⟩ := h
  rfl

/-- Witness for C2 on the sample row (600 + 400 + 0 = 1000). -/
theorem total_registration_eq_sum_witness :
    (cleanRow 0 sampleRaw).total =
      ((cleanRow 0 sampleRaw).male.add (cleanRow 0 sampleRaw).female).add
        (cleanRow 0 sampleRaw).other :=
  total_registration_eq_sum [sampleRaw] (cleanRow 0 sampleRaw) (by decide)

/-- Claim C9: the cleaned table has exactly as many rows as the input
(no row dropped), and its column set extends the input's column set
(the six input columns plus the four derived ones). -/
theorem loader_preserves_shape (rows : List RawRow) :
    (load_and_clean_data rows).length = rows.length ∧
    (∀ c, c ∈ rawColumns → c ∈ cleanColumns) := by
  constructor
  · unfold load_and_clean_data
    rw [List.length_map, List.enum_length]
  · intro c hc
    unfold cleanColumns
    exact List.mem_append_left _ hc

/-- Witness for C9: a one-row table keeps one row, and the input
column "Active Registration" is among the output columns. -/
theorem loader_preserves_shape_witness :
    (load_and_clean_data [sampleRaw]).length = 1 ∧
    "Active Registration" ∈ cleanColumns :=
  ⟨(loader_preserves_shape [sampleRaw]).1,
    (loader_preserves_shape [sampleRaw]).2 "Active Registration" (by decide)⟩

/-! ### Claim C10: no stage modifies the shared table -/

/-- Claim C10: each renderer and the summary reporter only reads the
cleaned table: the table each stage hands back is exactly the one it
received (no statement of any stage assigns into the DataFrame), so
every stage of the pipeline observes the loader's table unchanged. -/
theorem stages_preserve_table (df : List CleanRow) :
    (generate_scatter_plot df).map Prod.snd =
      (generate_scatter_plot df).map (fun _ => df) ∧
    (generate_box_plot df).2 = df ∧
    (generate_bar_plot df).2 = df ∧
    (generate_summary_statistics df).2 = df := by
  refine ⟨?_, rfl, rfl, rfl⟩
  unfold generate_scatter_plot
  cases polyfitLine (df.map (·.activeReg)) (df.map (·.genderRatio)) <;> rfl

/-! ### Claim C5: the empty table crashes the scatter renderer -/

/-- Claim C5 (refuted: the code crashes): on a table with zero data
rows, `np.polyfit` is called with empty vectors and raises
(`TypeError: expected non-empty vector for x`), so the scatter
renderer fails and the driver aborts before producing any artifact —
the run does not complete. -/
theorem empty_input_crashes :
    generate_scatter_plot (load_and_clean_data []) =
      Except.error "expected non-empty vector for x" ∧
    mainPipeline [] = Except.error "expected non-empty vector for x" :=
  ⟨rfl, rfl⟩

/-! ### Claim C3: the non-negativity/finiteness invariant -/

/-- The per-row invariant asserted by the spec: every numeric field
(raw and derived) of a cleaned row is a finite non-negative number. -/
def rowNumericFieldsOk (r : CleanRow) : Bool :=
  r.activeReg.isFiniteNonneg && r.male.isFiniteNonneg &&
    r.female.isFiniteNonneg && r.other.isFiniteNonneg &&
    r.total.isFiniteNonneg && r.genderRatio.isFiniteNonneg &&
    r.femalePct.isFiniteNonneg && r.malePct.isFiniteNonneg

/-- Counterexample to C3: on the row with raw cells
Active Registration = "-5", Male = "0", Female = "1", the cleaned
Active Registration is the negative number -5 and Gender_Ratio is
positive infinity, so not every numeric field is a non-negative
finite number. -/
theorem numeric_invariant_cex :
    ¬ (∀ r ∈ load_and_clean_data
        [{ division := "A", district := "X", activeReg := "-5",
           male := "0", female := "1", other := "0" }],
        rowNumericFieldsOk r = true) := by
  decide

/-- A raw numeric cell is benign when its comma-free form consists
only of decimal digits and dots, with at most 307 digits before the
first dot — the shape of a well-formed registration count. In the
program such a cell coerces to a non-negative finite float64: the
digit/dot restriction rules out minus signs, exponent notation
(whose overflow, e.g. `1e400`, floats to `inf`), and the
case-insensitive `inf`/`nan` literals, and the length bound keeps
each value below `10^307`, so that even the three-way
Total_Registration sum stays under the float64 maximum
(≈ 1.798·10^308). The length bound is a float64-side constraint: the
exact-rational model overflows nowhere, so the Lean proof does not
consume it, but the amended claim would be false of the program
without it. -/
def benignCell (s : String) : Bool :=
  ((stripCommas s).data.all fun c => c.isDigit || c = '.') &&
    decide ((splitDot (stripCommas s).data).1.length ≤ 307)

lemma parseMag_fill_nonneg {cs : List Char} (h : cs ≠ "inf".data) :
    (((parseMag cs).getD PVal.nan).fillna0).isFiniteNonneg = true := by
  unfold parseMag
  rw [if_neg h]
  by_cases hn : cs = "nan".data
  · rw [if_pos hn]; decide
  · rw [if_neg hn]
    cases hd : parseDec cs with
    | none => decide
    | some q =>
        have h0 := (parseDec_spec hd).1
        simp [PVal.isFiniteNonneg, PVal.fillna0, h0]

lemma cleanCell_benign {s : String} (h : benignCell s = true) :
    (cleanCell s).isFiniteNonneg = true := by
  simp only [benignCell, Bool.and_eq_true, List.all_eq_true, Bool.or_eq_true,
    decide_eq_true_eq] at h
  obtain ⟨hall, -⟩ := h
  have hdef : cleanCell s = ((parseNum (if stripCommas s = "NA" then "0"
      else stripCommas s)).getD PVal.nan).fillna0 := rfl
  rw [hdef]
  by_cases hna : stripCommas s = "NA"
  · rw [if_pos hna]; decide
  · rw [if_neg hna]
    rcases hd : (stripCommas s).data with _ | ⟨c, rest⟩
    · have hpn : parseNum (stripCommas s) = none := by
        unfold parseNum; rw [hd]
      rw [hpn]; decide
    · have hpn : parseNum (stripCommas s) =
          (if c = '-' then (parseMag rest).map PVal.negate
           else if c = '+' then parseMag rest else parseMag (c :: rest)) := by
        unfold parseNum; rw [hd]
      have hcd : c.isDigit = true ∨ c = '.' :=
        hall c (by rw [hd]; exact List.mem_cons_self _ _)
      have hcne : ¬(c = '-') := by
        intro he
        subst he
        rcases hcd with h' | h'
        · exact absurd h' (by decide)
        · exact absurd h' (by decide)
      have hcp : ¬(c = '+') := by
        intro he
        subst he
        rcases hcd with h' | h'
        · exact absurd h' (by decide)
        · exact absurd h' (by decide)
      rw [hpn, if_neg hcne, if_neg hcp]
      apply parseMag_fill_nonneg
      intro he
      have hi : 'i' ∈ (stripCommas s).data := by
        rw [hd, he]
        exact List.mem_cons_self _ _
      rcases hall 'i' hi with h' | h'
      · exact absurd h' (by decide)
      · exact absurd h' (by decide)

lemma add_isFiniteNonneg {a b : PVal} (ha : a.isFiniteNonneg = true)
    (hb : b.isFiniteNonneg = true) : (a.add b).isFiniteNonneg = true := by
  cases a with
  | num x =>
      cases b with
      | num y =>
          simp only [PVal.isFiniteNonneg, decide_eq_true_eq] at ha hb
          simp only [PVal.add, PVal.isFiniteNonneg, decide_eq_true_eq]
          linarith
      | inf => simp [PVal.isFiniteNonneg] at hb
      | negInf => simp [PVal.isFiniteNonneg] at hb
      | nan => simp [PVal.isFiniteNonneg] at hb
  | inf => simp [PVal.isFiniteNonneg] at ha
  | negInf => simp [PVal.isFiniteNonneg] at ha
  | nan => simp [PVal.isFiniteNonneg] at ha

/-- Claim C3 (amended): cleaning enforces neither sign nor
finiteness in general, but whenever every raw numeric cell is benign
(comma-free form made only of digits and dots, at most 307 integer
digits — see `benignCell` for why each part is needed against
float64 signs, overflow and special literals) — as every well-formed
registration count is — the four cleaned numeric columns and
Total_Registration are finite and non-negative. The derived ratio
and percentage columns are exempt: they become infinite or NaN when
Male = 0 or Active Registration = 0 (see the division-by-zero
analysis) and reach downstream computation so. -/
theorem numeric_invariant_amended (rows : List RawRow)
    (hb : ∀ rr ∈ rows, benignCell rr.activeReg = true ∧
      benignCell rr.male = true ∧ benignCell rr.female = true ∧
      benignCell rr.other = true) :
    ∀ r ∈ load_and_clean_data rows,
      r.activeReg.isFiniteNonneg = true ∧ r.male.isFiniteNonneg = true ∧
      r.female.isFiniteNonneg = true ∧ r.other.isFiniteNonneg = true ∧
      r.total.isFiniteNonneg = true := by
  intro r hr
  unfold load_and_clean_data at hr
  rw [List.mem_map] at hr
  obtain ⟨p, hp, rfl⟩ := hr
  have hp2 : p.2 ∈ rows := by
    obtain ⟨i, hi, hg⟩ := List.mem_iff_getElem.1 hp
    rw [List.getElem_enum] at hg
    rw [← hg]
    exact List.getElem_mem _
  obtain ⟨h1, h2, h3, h4⟩ := hb p.2 hp2
  refine ⟨cleanCell_benign h1, cleanCell_benign h2, cleanCell_benign h3,
    cleanCell_benign h4, ?_⟩
  exact add_isFiniteNonneg
    (add_isFiniteNonneg (cleanCell_benign h2) (cleanCell_benign h3))
    (cleanCell_benign h4)

/-- A fully-benign sample row: each numeric cell is digits and dots
only (commas are stripped before the benignity test). -/
def benignRaw : RawRow :=
  { division := "Pune", district := "X", activeReg := "1,000",
    male := "600", female := "400.5", other := "0" }

/-- Witness for the amended C3: on the benign sample row all four
cleaned columns and the total are finite and non-negative. -/
theorem numeric_invariant_amended_witness :
    (cleanRow 0 benignRaw).activeReg.isFiniteNonneg = true ∧
    (cleanRow 0 benignRaw).male.isFiniteNonneg = true ∧
    (cleanRow 0 benignRaw).female.isFiniteNonneg = true ∧
    (cleanRow 0 benignRaw).other.isFiniteNonneg = true ∧
    (cleanRow 0 benignRaw).total.isFiniteNonneg = true :=
  numeric_invariant_amended [benignRaw] (by decide) (cleanRow 0 benignRaw)
    (by decide)

/-! ### Claim C4: the division-by-zero sentinel -/

/-- A row with Male = 0 and Female = 1. -/
def zeroMaleRowA : RawRow := ⟨"A", "X", "10", "0", "1", "0"⟩

/-- A row with Male = 0 and Female = 0. -/
def zeroMaleRowB : RawRow := ⟨"A", "Y", "10", "0", "0", "0"⟩

/-- Counterexample to C4: there is no single sentinel value taken by
Gender_Ratio on every row with Male = 0 — with Female = 1 the ratio
is `inf`, with Female = 0 it is NaN. -/
theorem gender_ratio_sentinel_cex :
    ¬ ∃ sentinel : PVal, ∀ r ∈ load_and_clean_data [zeroMaleRowA, zeroMaleRowB],
        r.male = PVal.num 0 → r.genderRatio = sentinel := by
  rintro ⟨v, hv⟩
  have h1 := hv (cleanRow 0 zeroMaleRowA) (by decide) (by decide)
  have h2 := hv (cleanRow 1 zeroMaleRowB) (by decide) (by decide)
  rw [show (cleanRow 0 zeroMaleRowA).genderRatio = PVal.inf from by decide] at h1
  rw [show (cleanRow 1 zeroMaleRowB).genderRatio = PVal.nan from by decide] at h2
  rw [← h1] at h2
  exact absurd h2 (by decide)

lemma div_zero_scale (q c : ℚ) (hc : 0 < c) :
    ((PVal.num q).div (PVal.num 0)).scale c =
      if 0 < q then PVal.inf else if q < 0 then PVal.negInf else PVal.nan := by
  have hd : (PVal.num q).div (PVal.num 0) =
      (if (0 : ℚ) = 0 then
        (if 0 < q then PVal.inf else if q < 0 then PVal.negInf else PVal.nan)
      else PVal.num (q / 0)) := rfl
  rw [hd, if_pos rfl]
  split_ifs with hq1 hq2
  · simp [PVal.scale, hc]
  · simp [PVal.scale, hc]
  · simp [PVal.scale]

/-- The raw cell carries no minus sign anywhere in its comma-free
form. Under this condition a float64 zero produced by the program's
cleaning can only be +0.0: the IEEE negative zero −0.0 arises solely
from a minus-signed cell such as `"-0.0"`, and `1.0 / -0.0 = -inf`
flips the sentinel's sign — a distinction the exact-rational model
cannot carry (it merges ±0), so the amended C4 is guarded by this
program-side hypothesis (the Lean proof does not consume it). -/
def noMinusCell (s : String) : Bool := decide ('-' ∉ (stripCommas s).data)

/-- Claim C4 (amended): the derivation never raises (it is a total
function), but the zero-denominator result is not one single
sentinel. Every row of the cleaned table is `cleanRow p.1 p.2` for an
entry `p` of the enumerated input; provided the raw denominator cell
carries no minus sign — so the program's float64 zero is +0.0, see
`noMinusCell` — Gender_Ratio on a row with Male = 0 is `inf` when
Female > 0, `-inf` when Female < 0 and NaN when Female = 0, the IEEE
convention; Female_Percentage and Male_Percentage follow exactly the
same convention when Active Registration = 0. -/
theorem gender_ratio_sentinel_amended (rows : List RawRow) :
    ∀ p ∈ rows.enum,
      (∀ q : ℚ, noMinusCell p.2.male = true →
        (cleanRow p.1 p.2).male = PVal.num 0 →
        (cleanRow p.1 p.2).female = PVal.num q →
        (cleanRow p.1 p.2).genderRatio = if 0 < q then PVal.inf
          else if q < 0 then PVal.negInf else PVal.nan) ∧
      (∀ q : ℚ, noMinusCell p.2.activeReg = true →
        (cleanRow p.1 p.2).activeReg = PVal.num 0 →
        (cleanRow p.1 p.2).female = PVal.num q →
        (cleanRow p.1 p.2).femalePct = if 0 < q then PVal.inf
          else if q < 0 then PVal.negInf else PVal.nan) ∧
      (∀ q : ℚ, noMinusCell p.2.activeReg = true →
        (cleanRow p.1 p.2).activeReg = PVal.num 0 →
        (cleanRow p.1 p.2).male = PVal.num q →
        (cleanRow p.1 p.2).malePct = if 0 < q then PVal.inf
          else if q < 0 then PVal.negInf else PVal.nan) := by
  intro p _
  refine ⟨?_, ?_, ?_⟩
  · intro q _hnm hm hf
    show ((cleanCell p.2.female).div (cleanCell p.2.male)).scale 1000 = _
    rw [show cleanCell p.2.female = PVal.num q from hf,
      show cleanCell p.2.male = PVal.num 0 from hm]
    exact div_zero_scale q 1000 (by norm_num)
  · intro q _hnm ha hf
    show ((cleanCell p.2.female).div (cleanCell p.2.activeReg)).scale 100 = _
    rw [show cleanCell p.2.female = PVal.num q from hf,
      show cleanCell p.2.activeReg = PVal.num 0 from ha]
    exact div_zero_scale q 100 (by norm_num)
  · intro q _hnm ha hm
    show ((cleanCell p.2.male).div (cleanCell p.2.activeReg)).scale 100 = _
    rw [show cleanCell p.2.male = PVal.num q from hm,
      show cleanCell p.2.activeReg = PVal.num 0 from ha]
    exact div_zero_scale q 100 (by norm_num)

/-- A row with both Active Registration = 0 and Male = 0. -/
def zeroMaleRowC : RawRow := ⟨"A", "X", "0", "0", "1", "0"⟩

/-- Witness for the amended C4: a row with a minus-free Male cell
cleaning to 0 and Female = 1 gets Gender_Ratio = inf. -/
theorem gender_ratio_sentinel_amended_witness :
    (cleanRow 0 zeroMaleRowC).genderRatio = PVal.inf := by
  have h : (cleanRow 0 zeroMaleRowC).genderRatio =
      if (0 : ℚ) < 1 then PVal.inf else if (1 : ℚ) < 0 then PVal.negInf
      else PVal.nan :=
    (gender_ratio_sentinel_amended [zeroMaleRowC] (0, zeroMaleRowC)
      (by decide)).1 1 (by decide) (by decide) (by decide)
  rw [h]
  norm_num

/-! ### Claim C6: tie stability of all top-N selections -/

section StableSortLemmas

variable {β : Type} {α : Type} [LinearOrder α]

lemma mem_insDesc (k : β → α) (x y : β) (l : List β) :
    y ∈ insDesc k x l ↔ y = x ∨ y ∈ l := by
  induction l with
  | nil => simp [insDesc]
  | cons z zs ih =>
      unfold insDesc
      split
      · simp only [List.mem_cons]
      · simp only [List.mem_cons, ih]
        tauto

lemma sortDesc_eq_cons (k : β → α) (x : β) (l : List β) :
    sortDesc k (x :: l) = insDesc k x (sortDesc k l) := rfl

lemma mem_sortDesc (k : β → α) (y : β) (l : List β) :
    y ∈ sortDesc k l ↔ y ∈ l := by
  induction l with
  | nil => simp [sortDesc]
  | cons z zs ih =>
      rw [sortDesc_eq_cons, mem_insDesc]
      simp [ih]

lemma insDesc_pairwise (k : β → α) (j : β → ℕ) (x : β) (l : List β)
    (hj : ∀ y ∈ l, j x < j y)
    (hl : l.Pairwise (fun a b => k b < k a ∨ (k a = k b ∧ j a < j b))) :
    (insDesc k x l).Pairwise (fun a b => k b < k a ∨ (k a = k b ∧ j a < j b)) := by
  induction l with
  | nil => simp [insDesc]
  | cons y ys ih =>
      rw [List.pairwise_cons] at hl
      obtain ⟨hy, hys⟩ := hl
      unfold insDesc
      split
      case isTrue hcmp =>
        rw [List.pairwise_cons]
        refine ⟨?_, ?_⟩
        · intro z hz
          have hzxle : k z ≤ k x := by
            rcases List.mem_cons.1 hz with rfl | hz'
            · exact hcmp
            · rcases hy z hz' with h' | ⟨h', -⟩
              · exact le_trans (le_of_lt h') hcmp
              · exact le_trans (le_of_eq h'.symm) hcmp
          rcases lt_or_eq_of_le hzxle with h' | h'
          · exact Or.inl h'
          · exact Or.inr ⟨h'.symm, hj z hz⟩
        · rw [List.pairwise_cons]
          exact ⟨hy, hys⟩
      case isFalse hcmp =>
        rw [List.pairwise_cons]
        refine ⟨?_, ?_⟩
        · intro z hz
          rcases (mem_insDesc k x z ys).1 hz with rfl | hz'
          · exact Or.inl (lt_of_not_le hcmp)
          · exact hy z hz'
        · exact ih (fun y' hy' => hj y' (List.mem_cons_of_mem _ hy')) hys

lemma sortDesc_pairwise (k : β → α) (j : β → ℕ) (l : List β)
    (hl : l.Pairwise (fun a b => j a < j b)) :
    (sortDesc k l).Pairwise (fun a b => k b < k a ∨ (k a = k b ∧ j a < j b)) := by
  induction l with
  | nil => simp [sortDesc]
  | cons x xs ih =>
      rw [List.pairwise_cons] at hl
      obtain ⟨hx, hxs⟩ := hl
      rw [sortDesc_eq_cons]
      exact insDesc_pairwise k j x (sortDesc k xs)
        (fun y hy => hx y ((mem_sortDesc k y xs).1 hy)) (ih hxs)

lemma nlargest_tie_stable (n : ℕ) (k : β → α) (j : β → ℕ) (l : List β)
    (hl : l.Pairwise (fun a b => j a < j b)) :
    (nlargest n k l).Pairwise (fun a b => k a = k b → j a < j b) := by
  have h2 : (nlargest n k l).Pairwise
      (fun a b => k b < k a ∨ (k a = k b ∧ j a < j b)) :=
    (sortDesc_pairwise k j l hl).sublist (List.take_sublist n _)
  refine h2.imp ?_
  intro a b h he
  rcases h with h' | ⟨-, h'⟩
  · exact absurd (he ▸ h') (lt_irrefl _)
  · exact h'

end StableSortLemmas

lemma load_pairwise_idx (rows : List RawRow) :
    (load_and_clean_data rows).Pairwise (fun a b => a.idx < b.idx) := by
  unfold load_and_clean_data
  have he : rows.enum.Pairwise (fun a b => a.1 < b.1) := by
    rw [List.pairwise_iff_getElem]
    intro i jj hi hj hij
    rw [List.getElem_enum, List.getElem_enum]
    simpa using hij
  exact List.Pairwise.map _ (fun a b h => h) he

lemma nlargestPV_tie_stable (n : ℕ) (k : CleanRow → PVal) (df : List CleanRow)
    (hdf : df.Pairwise (fun a b => a.idx < b.idx)) :
    (nlargestPV n k df).Pairwise (fun a b => k a = k b → a.idx < b.idx) := by
  unfold nlargestPV
  have h1 : (df.filter (fun r => k r != PVal.nan)).Pairwise
      (fun a b => a.idx < b.idx) := hdf.filter _
  have h2 := nlargest_tie_stable n (fun r => (k r).toE) (fun r => r.idx) _ h1
  refine h2.imp ?_
  intro a b h he
  exact h (congrArg PVal.toE he)

/-- Claim C6: each top-N selection of the script — the bar chart's
top-15 districts by Active Registration, the summary's top-5 by
Active Registration and top-5 by Gender_Ratio, all `nlargest`
with the default `keep='first'` — lists rows tied on the ranking key
in their original table order (strictly increasing index). -/
theorem topn_tie_stable (rows : List RawRow) :
    ((generate_bar_plot (load_and_clean_data rows)).1.topDistricts.Pairwise
      (fun a b => a.activeReg = b.activeReg → a.idx < b.idx)) ∧
    ((generate_summary_statistics (load_and_clean_data rows)).1.top5.Pairwise
      (fun a b => a.activeReg = b.activeReg → a.idx < b.idx)) ∧
    ((generate_summary_statistics (load_and_clean_data rows)).1.top5Gender.Pairwise
      (fun a b => a.genderRatio = b.genderRatio → a.idx < b.idx)) := by
  have hdf := load_pairwise_idx rows
  refine ⟨?_, ?_, ?_⟩
  · show (nlargestPV 15 (·.activeReg) (load_and_clean_data rows)).Pairwise _
    exact nlargestPV_tie_stable 15 _ _ hdf
  · show (nlargestPV 5 (·.activeReg) (load_and_clean_data rows)).Pairwise _
    exact nlargestPV_tie_stable 5 _ _ hdf
  · show (nlargestPV 5 (·.genderRatio) (load_and_clean_data rows)).Pairwise _
    exact nlargestPV_tie_stable 5 _ _ hdf
